import Mathlib

/-!
Shallow embedding of the video-forensics pipeline in `src/script.py`,
with theorems settling the frozen claims about it.

External collaborators (the filesystem, the SHA-256 accumulator from
`hashlib`, ffmpeg/ffprobe, `imagehash.phash`, `cv2.imread`,
`skimage ssim`) are modelled as explicit parameters of the embedded
functions; the control flow of each Python function is translated
line by line.
-/

namespace Forensic

/-! ### Filesystem model

`sha256_file` distinguishes four failure shapes on a path:
absent (`os.path.exists` false), present but not a regular file
(`os.path.isfile` false), a `PermissionError` while reading, and any
other exception while reading.  A filesystem is a partial map from
paths to entries; a file entry carries the outcome reading it would
have. -/

/-- Outcome of opening and reading a file's bytes. -/
inductive ReadOutcome where
  | ok (content : List Nat)
  | permissionDenied
  | readFailed (msg : String)
  deriving DecidableEq, Repr

/-- A filesystem entry: a regular file or anything that exists but is
not a regular file (e.g. a directory). -/
inductive FSEntry where
  | file (r : ReadOutcome)
  | dir
  deriving DecidableEq, Repr

/-- The error taxonomy of `sha256_file`: `FileNotFoundError`,
`ValueError`, `PermissionError`, `RuntimeError` in the source, named
`NotFoundError` / `InvalidInputError` / `AccessError` / `IOFailure`
by the spec. -/
inductive HashError where
  | notFound (msg : String)
  | invalidInput (msg : String)
  | access (msg : String)
  | ioFailure (msg : String)
  deriving DecidableEq, Repr

/-- An incremental hash accumulator, modelling `hashlib.sha256()`:
an initial state, `update` with a chunk of bytes, and `hexdigest`. -/
structure HashAcc (H : Type) where
  init : H
  update : H → List Nat → H
  hexdigest : H → String

/-- Chunking with a structural fuel argument; the fuel never runs out
when it starts at the list length, since each step drops at least one
element of a nonempty list. -/
def chunksAux : Nat → List Nat → List (List Nat)
  | 0, _ => []
  | fuel + 1, l => if l = [] then [] else l.take 8192 :: chunksAux fuel (l.drop 8192)

/-- Split a byte list into the chunks produced by
`iter(lambda: f.read(8192), b"")`: successive pieces of 8192 bytes,
the last one possibly shorter, none empty. -/
def chunks8192 (l : List Nat) : List (List Nat) :=
  chunksAux l.length l

/-- `sha256_file(path)` from the source: existence check, regular-file
check, chunked read through the accumulator, with the source's
exception mapping. -/
def sha256_file {H : Type} (hash : HashAcc H) (fs : String → Option FSEntry)
    (path : String) : Except HashError String :=
  match fs path with
  | none => .error (.notFound ("File not found: " ++ path))
  | some .dir => .error (.invalidInput ("Path is not a file: " ++ path))
  | some (.file .permissionDenied) =>
      .error (.access ("Permission denied accessing file: " ++ path))
  | some (.file (.readFailed m)) =>
      .error (.ioFailure ("Error reading file " ++ path ++ ": " ++ m))
  | some (.file (.ok content)) =>
      .ok (hash.hexdigest ((chunks8192 content).foldl hash.update hash.init))

end Forensic

namespace Forensic

/-- C7: the integrity hasher's error taxonomy, case by case: absent
path gives `NotFoundError`, non-regular-file gives `InvalidInputError`,
permission failure gives `AccessError`, any other read error gives
`IOFailure`, and a digest is returned exactly when the file is
readable. -/
theorem sha256_file_error_taxonomy {H : Type} (hash : HashAcc H)
    (fs : String → Option FSEntry) (path : String) :
    (fs path = none →
      sha256_file hash fs path = .error (.notFound ("File not found: " ++ path))) ∧
    (fs path = some .dir →
      sha256_file hash fs path = .error (.invalidInput ("Path is not a file: " ++ path))) ∧
    (fs path = some (.file .permissionDenied) →
      sha256_file hash fs path = .error (.access ("Permission denied accessing file: " ++ path))) ∧
    (∀ m, fs path = some (.file (.readFailed m)) →
      sha256_file hash fs path = .error (.ioFailure ("Error reading file " ++ path ++ ": " ++ m))) ∧
    (∀ c, fs path = some (.file (.ok c)) →
      sha256_file hash fs path =
        .ok (hash.hexdigest ((chunks8192 c).foldl hash.update hash.init))) := by
  refine ⟨?_, ?_, ?_, ?_, ?_⟩ <;> intro h
  · simp [sha256_file, h]
  · simp [sha256_file, h]
  · simp [sha256_file, h]
  · intro hm; simp [sha256_file, hm]
  · intro hc; simp [sha256_file, hc]

/-- A trivial concrete accumulator used only to instantiate witnesses. -/
def unitHash : HashAcc Unit :=
  { init := (), update := fun _ _ => (), hexdigest := fun _ => "d" }

/-- A five-path concrete filesystem used only to instantiate witnesses. -/
def fsW : String → Option FSEntry := fun p =>
  if p = "missing" then none
  else if p = "adir" then some .dir
  else if p = "locked" then some (.file .permissionDenied)
  else if p = "broken" then some (.file (.readFailed "boom"))
  else some (.file (.ok [1, 2, 3]))

/-- Witness for C7 at a concrete filesystem covering all five cases. -/
theorem sha256_file_error_taxonomy_witness :
    sha256_file unitHash fsW "missing" = .error (.notFound "File not found: missing") ∧
    sha256_file unitHash fsW "adir" = .error (.invalidInput "Path is not a file: adir") ∧
    sha256_file unitHash fsW "locked" =
      .error (.access "Permission denied accessing file: locked") ∧
    sha256_file unitHash fsW "broken" =
      .error (.ioFailure "Error reading file broken: boom") ∧
    sha256_file unitHash fsW "good" = .ok "d" := by
  refine ⟨?_, ?_, ?_, ?_, ?_⟩
  · exact (sha256_file_error_taxonomy unitHash fsW "missing").1 rfl
  · exact (sha256_file_error_taxonomy unitHash fsW "adir").2.1 rfl
  · exact (sha256_file_error_taxonomy unitHash fsW "locked").2.2.1 rfl
  · exact (sha256_file_error_taxonomy unitHash fsW "broken").2.2.2.1 "boom" rfl
  · exact (sha256_file_error_taxonomy unitHash fsW "good").2.2.2.2 [1, 2, 3] rfl

/-- C8: the digest is a deterministic function of the byte content
only: two readable files with identical content yield identical
results, across any two filesystems and paths. -/
theorem sha256_file_deterministic {H : Type} (hash : HashAcc H)
    (fs₁ fs₂ : String → Option FSEntry) (p₁ p₂ : String) (c : List Nat)
    (h₁ : fs₁ p₁ = some (.file (.ok c))) (h₂ : fs₂ p₂ = some (.file (.ok c))) :
    sha256_file hash fs₁ p₁ = sha256_file hash fs₂ p₂ := by
  simp [sha256_file, h₁, h₂]

/-- Witness for C8: same bytes behind two different paths of two
different filesystems hash identically. -/
theorem sha256_file_deterministic_witness :
    sha256_file unitHash fsW "good" = sha256_file unitHash (fun _ => some (.file (.ok [1, 2, 3]))) "other" :=
  sha256_file_deterministic unitHash fsW (fun _ => some (.file (.ok [1, 2, 3])))
    "good" "other" [1, 2, 3] rfl rfl

end Forensic

namespace Forensic

/-! ### Frame indexer (`index_frames`)

`imagehash.phash(Image.open(f))` is modelled by a collaborator
`phash : String → Option String` (`none` = the `except` branch fired,
recording `ph = ""`).  The per-frame `sha256_file` call is NOT inside
a `try`, so its exception aborts the function before the
`json.dump` that follows the loop. -/

/-- `os.path.basename`: the part of the path after the last slash. -/
def basename (p : String) : String :=
  String.mk ((p.data.reverse.takeWhile (fun c => c ≠ '/')).reverse)

/-- One record of the frame index:
`{"frame": basename f, "path": f, "phash": ph, "sha256": h}`. -/
structure IndexEntry where
  frame : String
  path : String
  phash : String
  sha256 : String
  deriving DecidableEq, Repr

/-- `index_frames(frame_files, out_csv_path)` from the source: per
frame, a fingerprint (empty string on fingerprinting failure) and a
digest (whose failure propagates out of the function, aborting it). -/
def index_frames (phash : String → Option String)
    (hashOf : String → Except HashError String) :
    List String → Except HashError (List IndexEntry)
  | [] => .ok []
  | f :: rest =>
      let ph := match phash f with | some s => s | none => ""
      match hashOf f with
      | .error e => .error e
      | .ok h =>
          match index_frames phash hashOf rest with
          | .error e => .error e
          | .ok tail => .ok ({ frame := basename f, path := f, phash := ph, sha256 := h } :: tail)

/-- The entry `index_frames` produces for one hashable frame file. -/
def entryOf (phash : String → Option String)
    (hashOf : String → Except HashError String) (f : String) : IndexEntry :=
  { frame := basename f, path := f,
    phash := match phash f with | some s => s | none => "",
    sha256 := (hashOf f).toOption.getD "" }

/-- The serialized frame-index document: `json.dump(index, j)` runs
only after the whole loop has finished, so the document exists exactly
when `index_frames` returned normally. -/
def indexDocument (phash : String → Option String)
    (hashOf : String → Except HashError String) (frame_files : List String) :
    Option (List IndexEntry) :=
  (index_frames phash hashOf frame_files).toOption

end Forensic

namespace Forensic

/-- C3: when every frame file is hashable, indexing succeeds and
returns exactly one entry per input frame, in input order (so the
output length equals the input length); an entry whose fingerprint
computation failed carries the empty fingerprint string instead of
aborting the rest. -/
theorem index_frames_total_on_hashable (phash : String → Option String)
    (hashOf : String → Except HashError String) (frame_files : List String)
    (hall : ∀ f ∈ frame_files, ∃ d, hashOf f = .ok d) :
    index_frames phash hashOf frame_files =
      .ok (frame_files.map (entryOf phash hashOf)) ∧
    (frame_files.map (entryOf phash hashOf)).length = frame_files.length := by
  refine ⟨?_, by simp⟩
  induction frame_files with
  | nil => rfl
  | cons f rest ih =>
      obtain ⟨d, hd⟩ := hall f (by simp)
      have hrest := ih (fun g hg => hall g (by simp [hg]))
      simp only [index_frames, hd, hrest, List.map_cons]
      simp [entryOf, hd, Except.toOption]

/-- Witness for C3: two frames, the second with a failing fingerprint,
both hashable. -/
theorem index_frames_total_on_hashable_witness :
    index_frames (fun f => if f = "frames/b.jpg" then none else some "ph")
      (fun _ => .ok "dig") ["frames/a.jpg", "frames/b.jpg"] =
      .ok [{ frame := "a.jpg", path := "frames/a.jpg", phash := "ph", sha256 := "dig" },
           { frame := "b.jpg", path := "frames/b.jpg", phash := "", sha256 := "dig" }] := by
  have h := (index_frames_total_on_hashable
    (fun f => if f = "frames/b.jpg" then none else some "ph")
    (fun _ => .ok "dig") ["frames/a.jpg", "frames/b.jpg"]
    (fun f _ => ⟨"dig", rfl⟩)).1
  rw [h]
  exact congrArg Except.ok (by decide)

/-- C10: if the digest of some frame in the list fails, `index_frames`
raises, so the serialized index document is never written. -/
theorem indexDocument_none_of_digest_failure (phash : String → Option String)
    (hashOf : String → Except HashError String) (frame_files : List String)
    (hfail : ∃ f ∈ frame_files, ∃ e, hashOf f = .error e) :
    indexDocument phash hashOf frame_files = none := by
  have hk : ∃ e, index_frames phash hashOf frame_files = .error e := by
    induction frame_files with
    | nil => obtain ⟨f, hf, _⟩ := hfail; simp at hf
    | cons f rest ih =>
        obtain ⟨g, hg, e, he⟩ := hfail
        cases hfg : hashOf f with
        | error e₂ => exact ⟨e₂, by simp [index_frames, hfg]⟩
        | ok d =>
            rcases List.mem_cons.mp hg with hg | hg
            · subst hg; rw [hfg] at he; cases he
            · obtain ⟨e₃, he₃⟩ := ih ⟨g, hg, e, he⟩
              exact ⟨e₃, by simp [index_frames, hfg, he₃]⟩
  obtain ⟨e, he⟩ := hk
  simp [indexDocument, he, Except.toOption]

/-- Witness for C10: the second of three frames fails its digest, and
no index document is produced. -/
theorem indexDocument_none_of_digest_failure_witness :
    indexDocument (fun _ => some "ph")
      (fun f => if f = "b" then .error (.notFound "File not found: b") else .ok "dig")
      ["a", "b", "c"] = none :=
  indexDocument_none_of_digest_failure (fun _ => some "ph")
    (fun f => if f = "b" then .error (.notFound "File not found: b") else .ok "dig")
    ["a", "b", "c"] ⟨"b", by simp, ⟨.notFound "File not found: b", by simp⟩⟩

end Forensic

namespace Forensic

/-! ### Temporal anomaly detector (`temporal_ssim`)

`cv2.imread(..., IMREAD_GRAYSCALE)` is modelled by a collaborator
`imread : String → Option R` over an abstract raster type `R`
(`none` = the frame failed to decode), and the `skimage` structural
similarity by `ssimFn : R → R → Option ℚ` (`none` = the computation
raised).  Scores are rationals standing for the Python floats. -/

/-- One score item:
`{"frame": ..., "next_frame": ..., "ssim": float(s)}`. -/
structure SimilarityRecord where
  frame : String
  next_frame : String
  ssim : ℚ
  deriving DecidableEq, Repr

/-- `temporal_ssim(frame_files, threshold)` from the source: walk the
consecutive pairs in temporal order; skip a pair when either frame
fails to decode; substitute score `0.0` when the similarity
computation fails; append every computed item to `scores` and, when
its score is strictly below the threshold, also to `anomalies`. -/
def temporal_ssim {R : Type} (imread : String → Option R)
    (ssimFn : R → R → Option ℚ) :
    List String → ℚ → List SimilarityRecord × List SimilarityRecord
  | [], _ => ([], [])
  | [_], _ => ([], [])
  | f1 :: f2 :: rest, threshold =>
      let prev := temporal_ssim imread ssimFn (f2 :: rest) threshold
      match imread f1, imread f2 with
      | some a, some b =>
          let s := match ssimFn a b with | some v => v | none => 0
          let item : SimilarityRecord :=
            { frame := basename f1, next_frame := basename f2, ssim := s }
          (item :: prev.1, if s < threshold then item :: prev.2 else prev.2)
      | _, _ => prev

end Forensic

namespace Forensic

/-- C1: the anomaly sequence is exactly the temporal-order-preserving
filter of the score records at `score < threshold`; in particular a
record whose score equals the threshold is not an anomaly. -/
theorem temporal_ssim_anomalies_eq_filter {R : Type} (imread : String → Option R)
    (ssimFn : R → R → Option ℚ) (frame_files : List String) (threshold : ℚ) :
    (temporal_ssim imread ssimFn frame_files threshold).2 =
      (temporal_ssim imread ssimFn frame_files threshold).1.filter
        (fun r => r.ssim < threshold) ∧
    ∀ r ∈ (temporal_ssim imread ssimFn frame_files threshold).1,
      r.ssim = threshold → r ∉ (temporal_ssim imread ssimFn frame_files threshold).2 := by
  have hfilter : ∀ l : List String,
      (temporal_ssim imread ssimFn l threshold).2 =
        (temporal_ssim imread ssimFn l threshold).1.filter
          (fun r => r.ssim < threshold) := by
    intro l
    induction l with
    | nil => simp [temporal_ssim]
    | cons f1 rest ih =>
        cases rest with
        | nil => simp [temporal_ssim]
        | cons f2 rest2 =>
            cases h1 : imread f1 with
            | none => simpa [temporal_ssim, h1] using ih
            | some a =>
                cases h2 : imread f2 with
                | none => simpa [temporal_ssim, h1, h2] using ih
                | some b =>
                    simp only [temporal_ssim, h1, h2]
                    by_cases hs : (match ssimFn a b with | some v => v | none => 0) < threshold
                    · simp [hs, List.filter_cons, ih]
                    · simp [hs, List.filter_cons, ih]
  refine ⟨hfilter frame_files, ?_⟩
  intro r hr heq hmem
  rw [hfilter frame_files] at hmem
  have hlt := List.of_mem_filter hmem
  rw [heq] at hlt
  simp at hlt

/-- Concrete decoder used in witnesses: the length of the path name
stands for the raster. -/
def imreadLen : String → Option Nat := fun s =>
  if s = "bad" then none else some s.length

/-- Concrete similarity used in witnesses: always exactly 0. -/
def ssimZero : Nat → Nat → Option ℚ := fun _ _ => some 0

/-- Witness for C1 at threshold 0: the filter equality holds and the
boundary record (score exactly equal to the threshold) is not an
anomaly. -/
theorem temporal_ssim_anomalies_eq_filter_witness :
    (temporal_ssim imreadLen ssimZero ["aa", "bb"] 0).2 =
      (temporal_ssim imreadLen ssimZero ["aa", "bb"] 0).1.filter
        (fun r => r.ssim < 0) ∧
    ({ frame := "aa", next_frame := "bb", ssim := 0 } : SimilarityRecord) ∉
      (temporal_ssim imreadLen ssimZero ["aa", "bb"] 0).2 := by
  refine ⟨(temporal_ssim_anomalies_eq_filter imreadLen ssimZero ["aa", "bb"] 0).1, ?_⟩
  exact (temporal_ssim_anomalies_eq_filter imreadLen ssimZero ["aa", "bb"] 0).2
    { frame := "aa", next_frame := "bb", ssim := 0 } (by decide) (by decide)

end Forensic

namespace Forensic

/-- C4: the detector emits one record per consecutive pair whose two
frames both decode: the record count equals the number of decodable
consecutive pairs, is at most n-1, and is exactly n-1 when no pair
is skipped. -/
theorem temporal_ssim_record_count {R : Type} (imread : String → Option R)
    (ssimFn : R → R → Option ℚ) (frame_files : List String) (threshold : ℚ) :
    (temporal_ssim imread ssimFn frame_files threshold).1.length =
      ((frame_files.zip frame_files.tail).filter
        (fun p => (imread p.1).isSome && (imread p.2).isSome)).length ∧
    (temporal_ssim imread ssimFn frame_files threshold).1.length ≤
      frame_files.length - 1 ∧
    ((∀ p ∈ frame_files.zip frame_files.tail,
        (imread p.1).isSome ∧ (imread p.2).isSome) →
      (temporal_ssim imread ssimFn frame_files threshold).1.length =
        frame_files.length - 1) := by
  have hcount : ∀ l : List String,
      (temporal_ssim imread ssimFn l threshold).1.length =
        ((l.zip l.tail).filter
          (fun p => (imread p.1).isSome && (imread p.2).isSome)).length := by
    intro l
    induction l with
    | nil => simp [temporal_ssim]
    | cons f1 rest ih =>
        cases rest with
        | nil => simp [temporal_ssim]
        | cons f2 rest2 =>
            cases h1 : imread f1 with
            | none => simpa [temporal_ssim, h1, List.filter_cons] using ih
            | some a =>
                cases h2 : imread f2 with
                | none => simpa [temporal_ssim, h1, h2, List.filter_cons] using ih
                | some b => simpa [temporal_ssim, h1, h2, List.filter_cons] using ih
  refine ⟨hcount frame_files, ?_, ?_⟩
  · rw [hcount frame_files]
    have h1 := List.length_filter_le
      (fun p => (imread p.1).isSome && (imread p.2).isSome)
      (frame_files.zip frame_files.tail)
    have h2 : (frame_files.zip frame_files.tail).length =
        min frame_files.length frame_files.tail.length := List.length_zip _ _
    have h3 : frame_files.tail.length = frame_files.length - 1 := List.length_tail _
    omega
  · intro hall
    rw [hcount frame_files]
    have heq : (frame_files.zip frame_files.tail).filter
        (fun p => (imread p.1).isSome && (imread p.2).isSome) =
        frame_files.zip frame_files.tail := by
      refine List.filter_eq_self.mpr ?_
      intro p hp
      have := hall p hp
      simp [this.1, this.2]
    rw [heq]
    have h2 : (frame_files.zip frame_files.tail).length =
        min frame_files.length frame_files.tail.length := List.length_zip _ _
    have h3 : frame_files.tail.length = frame_files.length - 1 := List.length_tail _
    omega

/-- Witness for C4: three decodable frames give exactly 2 records, and
a sequence whose middle frame fails to decode gives 0 records (both
pairs are skipped). -/
theorem temporal_ssim_record_count_witness :
    (temporal_ssim imreadLen ssimZero ["aa", "bb", "cc"] 0).1.length = 3 - 1 ∧
    (temporal_ssim imreadLen ssimZero ["aa", "bad", "cc"] 0).1.length = 0 := by
  constructor
  · exact (temporal_ssim_record_count imreadLen ssimZero ["aa", "bb", "cc"] 0).2.2
      (by decide)
  · rw [(temporal_ssim_record_count imreadLen ssimZero ["aa", "bad", "cc"] 0).1]
    decide

/-- Helper: prepending a frame in front of the walked sequence
preserves membership in both output sequences. -/
theorem temporal_ssim_mem_cons {R : Type} (imread : String → Option R)
    (ssimFn : R → R → Option ℚ) (g : String) (l : List String) (threshold : ℚ)
    (x : SimilarityRecord) :
    (x ∈ (temporal_ssim imread ssimFn l threshold).1 →
      x ∈ (temporal_ssim imread ssimFn (g :: l) threshold).1) ∧
    (x ∈ (temporal_ssim imread ssimFn l threshold).2 →
      x ∈ (temporal_ssim imread ssimFn (g :: l) threshold).2) := by
  cases l with
  | nil => simp [temporal_ssim]
  | cons q rest =>
      cases h1 : imread g with
      | none => simp [temporal_ssim, h1]
      | some a =>
          cases h2 : imread q with
          | none => simp [temporal_ssim, h1, h2]
          | some b =>
              simp only [temporal_ssim, h1, h2]
              constructor
              · intro hx; exact List.mem_cons_of_mem _ hx
              · intro hx
                split
                · exact List.mem_cons_of_mem _ hx
                · exact hx

/-- C5 (amended): when both frames of a consecutive pair decode but
the similarity computation fails, the detector substitutes score 0.0,
and the pair is flagged as an anomaly for every positive threshold. -/
theorem temporal_ssim_failure_flagged {R : Type} (imread : String → Option R)
    (ssimFn : R → R → Option ℚ) (pre : List String) (fa fb : String)
    (post : List String) (threshold : ℚ) (a b : R)
    (ha : imread fa = some a) (hb : imread fb = some b)
    (hfail : ssimFn a b = none) (hpos : 0 < threshold) :
    ({ frame := basename fa, next_frame := basename fb, ssim := 0 } : SimilarityRecord) ∈
      (temporal_ssim imread ssimFn (pre ++ fa :: fb :: post) threshold).1 ∧
    ({ frame := basename fa, next_frame := basename fb, ssim := 0 } : SimilarityRecord) ∈
      (temporal_ssim imread ssimFn (pre ++ fa :: fb :: post) threshold).2 := by
  induction pre with
  | nil =>
      simp only [List.nil_append, temporal_ssim, ha, hb, hfail]
      constructor
      · exact List.mem_cons_self _ _
      · simp only [if_pos hpos]
        exact List.mem_cons_self _ _
  | cons g pre' ih =>
      rw [List.cons_append]
      exact ⟨(temporal_ssim_mem_cons imread ssimFn g _ threshold _).1 ih.1,
             (temporal_ssim_mem_cons imread ssimFn g _ threshold _).2 ih.2⟩

/-- Raster decoder used in the C5 counterexample: every frame decodes. -/
def imreadUnit : String → Option Unit := fun _ => some ()

/-- Similarity collaborator used in the C5 counterexample: the
computation always fails. -/
def ssimFail : Unit → Unit → Option Rat := fun _ _ => none

/-- C5 counterexample: at the configured threshold 0, the pair whose
similarity computation failed gets the substituted score 0.0 but is
NOT flagged as an anomaly (0 < 0 is false), refuting "for every
configured threshold". -/
theorem temporal_ssim_failure_unflagged_at_zero :
    (temporal_ssim imreadUnit ssimFail ["a", "b"] 0).1 =
      [{ frame := "a", next_frame := "b", ssim := 0 }] ∧
    (temporal_ssim imreadUnit ssimFail ["a", "b"] 0).2 = [] := by
  constructor <;> rfl

/-- Witness for the amended C5 at threshold 1: the substituted record
appears in both the score and the anomaly sequences. -/
theorem temporal_ssim_failure_flagged_witness :
    ({ frame := "a", next_frame := "b", ssim := 0 } : SimilarityRecord) ∈
      (temporal_ssim imreadUnit ssimFail ["a", "b"] 1).1 ∧
    ({ frame := "a", next_frame := "b", ssim := 0 } : SimilarityRecord) ∈
      (temporal_ssim imreadUnit ssimFail ["a", "b"] 1).2 := by
  have h := temporal_ssim_failure_flagged imreadUnit ssimFail [] "a" "b" [] 1
    () () rfl rfl rfl (by norm_num)
  simpa [basename] using h

end Forensic

namespace Forensic

/-! ### Frame extractor (`extract_frames`)

The source builds an ffmpeg command: with `skip and skip > 1` it adds
the filter `select=not(mod(n\,skip))` (keep exactly the frames whose
temporal index is a multiple of `skip`), otherwise it extracts every
frame.  ffmpeg writes the kept frames to `frame-%06d.jpg` with a
sequential counter starting at 1 (`printf` `%06d`: the decimal
numeral, left-padded with zeros to at least six characters), and the
function returns `sorted(glob("frame-*.jpg"))`.  The collaborator
behaviour (selection, naming) is modelled here exactly as described;
an N-frame source video is represented by its frame count `N`. -/

/-- Decimal digits, most significant first, with a structural fuel
argument (the fuel never runs out when it starts at the number
itself). -/
def decDigitsAux : Nat → Nat → List Nat
  | 0, n => [n]
  | fuel + 1, n => if n < 10 then [n] else decDigitsAux fuel (n / 10) ++ [n % 10]

/-- Decimal digits of `n`, most significant first (`0` gives `[0]`). -/
def decDigits (n : Nat) : List Nat :=
  decDigitsAux n n

theorem decDigitsAux_congr : ∀ (f₁ f₂ n : Nat), n ≤ f₁ → n ≤ f₂ →
    decDigitsAux f₁ n = decDigitsAux f₂ n := by
  intro f₁
  induction f₁ with
  | zero =>
      intro f₂ n h1 _
      have hn : n = 0 := by omega
      subst hn
      cases f₂ with
      | zero => rfl
      | succ f => simp [decDigitsAux]
  | succ f ih =>
      intro f₂ n h1 h2
      cases f₂ with
      | zero =>
          have hn : n = 0 := by omega
          subst hn
          simp [decDigitsAux]
      | succ g =>
          simp only [decDigitsAux]
          by_cases hn : n < 10
          · simp [hn]
          · have hd : n / 10 < n := Nat.div_lt_self (by omega) (by omega)
            rw [if_neg hn, if_neg hn, ih g (n / 10) (by omega) (by omega)]

/-- The recurrence `decDigits` satisfies. -/
theorem decDigits_eq (n : Nat) :
    decDigits n = if n < 10 then [n] else decDigits (n / 10) ++ [n % 10] := by
  cases n with
  | zero => simp [decDigits, decDigitsAux]
  | succ m =>
      show decDigitsAux (m + 1) (m + 1) = _
      simp only [decDigitsAux]
      by_cases hn : m + 1 < 10
      · simp [hn]
      · have hd : (m + 1) / 10 < m + 1 := Nat.div_lt_self (by omega) (by omega)
        rw [if_neg hn, if_neg hn,
          decDigitsAux_congr m ((m + 1) / 10) ((m + 1) / 10) (by omega) (by omega)]
        rfl

/-- `printf "%06d"`: the decimal digits of `n`, left-padded with
zeros to at least six positions. -/
def pad6 (n : Nat) : List Nat :=
  List.replicate (6 - (decDigits n).length) 0 ++ decDigits n

/-- The characters of the file name `frame-<%06d of n>.jpg`. -/
def frameNameChars (n : Nat) : List Char :=
  "frame-".data ++ (pad6 n).map Nat.digitChar ++ ".jpg".data

/-- The file name ffmpeg gives the frame with counter `n`. -/
def frameName (n : Nat) : String :=
  String.mk (frameNameChars n)

/-- The temporal indices of the frames ffmpeg keeps: every index below
`N` when `skip` is 0 or 1, else the multiples of `skip` below `N`
(the `select=not(mod(n\,skip))` filter). -/
def selectedIndices (N skip : Nat) : List Nat :=
  if 1 < skip then (List.range N).filter (fun i => i % skip = 0)
  else List.range N

/-- The frame file names in temporal (decode) order: the kept frames
receive sequential counters 1, 2, ... in decode order. -/
def temporalNames (N skip : Nat) : List String :=
  (List.range (selectedIndices N skip).length).map (fun j => frameName (j + 1))

/-- `extract_frames(video_path, out_dir, skip)` from the source:
the list of written frame files, returned `sorted` (Python's
lexicographic string sort). -/
def extract_frames (N skip : Nat) : List String :=
  List.insertionSort (· ≤ ·) (temporalNames N skip)

/-- Counting multiples: the number of `i < N` divisible by `k` is
`⌈N/k⌉`. -/
theorem count_multiples (N k : Nat) (hk : 0 < k) :
    ((List.range N).filter (fun i => i % k = 0)).length = (N + k - 1) / k := by
  induction N with
  | zero =>
      simp only [List.range_zero, List.filter_nil, List.length_nil]
      rw [Nat.div_eq_of_lt (show 0 + k - 1 < k by omega)]
  | succ m ih =>
      rw [List.range_succ, List.filter_append, List.length_append, ih]
      have key : (m + 1 + k - 1) / k = (m + k - 1) / k + (if m % k = 0 then 1 else 0) := by
        have h1 : m + 1 + k - 1 = (m + k - 1) + 1 := by omega
        rw [h1, Nat.succ_div]
        have h2 : (k ∣ m + k - 1 + 1) ↔ m % k = 0 := by
          rw [show m + k - 1 + 1 = m + k from by omega]
          rw [Nat.dvd_iff_mod_eq_zero, Nat.add_mod_right]
        simp only [h2]
      rw [key]
      congr 1
      by_cases hm : m % k = 0 <;> simp [hm]

end Forensic

namespace Forensic

/-- C2: extraction with stride 0 or 1 yields N frame files; with
stride n > 1 it yields ⌈N/n⌉ files, and the kept temporal indices are
exactly the multiples of n below N. -/
theorem extract_frames_count (N k : Nat) :
    (extract_frames N 0).length = N ∧
    (extract_frames N 1).length = N ∧
    (1 < k →
      (extract_frames N k).length = (N + k - 1) / k ∧
      ∀ i, i ∈ selectedIndices N k ↔ (i < N ∧ i % k = 0)) := by
  refine ⟨?_, ?_, fun hk => ⟨?_, ?_⟩⟩
  · simp [extract_frames, List.length_insertionSort, temporalNames, selectedIndices]
  · simp [extract_frames, List.length_insertionSort, temporalNames, selectedIndices]
  · rw [extract_frames, List.length_insertionSort, temporalNames, List.length_map,
      List.length_range, selectedIndices, if_pos hk]
    exact count_multiples N k (by omega)
  · intro i
    rw [selectedIndices, if_pos hk]
    simp [List.mem_filter]

/-- Witness for C2: scenario B of the spec, stride 3 on a 9-frame
source yields ⌈9/3⌉ = 3 files, kept indices are the multiples of 3;
stride 0 yields 9 files. -/
theorem extract_frames_count_witness :
    (extract_frames 9 0).length = 9 ∧
    (extract_frames 9 3).length = (9 + 3 - 1) / 3 ∧
    (3 ∈ selectedIndices 9 3 ∧ 4 ∉ selectedIndices 9 3) := by
  refine ⟨(extract_frames_count 9 3).1, ((extract_frames_count 9 3).2.2 (by decide)).1, ?_, ?_⟩
  · exact (((extract_frames_count 9 3).2.2 (by decide)).2 3).mpr (by decide)
  · intro h
    have := (((extract_frames_count 9 3).2.2 (by decide)).2 4).mp h
    omega

end Forensic

namespace Forensic

/-! ### Lexicographic order of the frame names

`sorted()` on the frame names is Python's lexicographic string sort.
For counters up to 999999 the `%06d` numerals all have width six and
lexicographic order coincides with numeric (temporal) order; from
counter 1000000 on, the numeral grows to seven characters and
`"frame-1000000.jpg"` sorts strictly before `"frame-999999.jpg"`. -/

/-- The numeric value of a most-significant-first digit list. -/
def digitsVal : List Nat → Nat
  | [] => 0
  | d :: ds => d * 10 ^ ds.length + digitsVal ds

theorem digitsVal_lt (ds : List Nat) (h : ∀ d ∈ ds, d < 10) :
    digitsVal ds < 10 ^ ds.length := by
  induction ds with
  | nil => simp [digitsVal]
  | cons d ds ih =>
      have hd : d < 10 := h d (by simp)
      have hds := ih (fun x hx => h x (by simp [hx]))
      simp only [digitsVal, List.length_cons, pow_succ]
      have h1 : d * 10 ^ ds.length + digitsVal ds < (d + 1) * 10 ^ ds.length := by
        rw [Nat.add_mul, Nat.one_mul]
        omega
      have h2 : (d + 1) * 10 ^ ds.length ≤ 10 * 10 ^ ds.length :=
        Nat.mul_le_mul_right _ (by omega)
      calc d * 10 ^ ds.length + digitsVal ds
          < (d + 1) * 10 ^ ds.length := h1
        _ ≤ 10 * 10 ^ ds.length := h2
        _ = 10 ^ ds.length * 10 := Nat.mul_comm _ _

theorem digitsVal_append_singleton (u : List Nat) (d : Nat) :
    digitsVal (u ++ [d]) = 10 * digitsVal u + d := by
  induction u with
  | nil => simp [digitsVal]
  | cons x u ih =>
      have hlen : (u ++ [d]).length = u.length + 1 := by simp
      simp only [List.cons_append, digitsVal, List.append_eq, ih, hlen, pow_succ]
      ring

theorem digitsVal_replicate_zero_append (m : Nat) (ds : List Nat) :
    digitsVal (List.replicate m 0 ++ ds) = digitsVal ds := by
  induction m with
  | zero => simp
  | succ k ih => simp [List.replicate_succ, digitsVal, ih]

theorem decDigits_lt10 (n : Nat) : ∀ d ∈ decDigits n, d < 10 := by
  induction n using Nat.strong_induction_on with
  | _ n ih =>
      rw [decDigits_eq]
      split
      · intro d hd
        simp only [List.mem_singleton] at hd
        omega
      · intro d hd
        rw [List.mem_append] at hd
        rcases hd with hd | hd
        · exact ih (n / 10) (Nat.div_lt_self (by omega) (by omega)) d hd
        · simp only [List.mem_singleton] at hd
          subst hd
          exact Nat.mod_lt _ (by omega)

theorem decDigits_val (n : Nat) : digitsVal (decDigits n) = n := by
  induction n using Nat.strong_induction_on with
  | _ n ih =>
      rw [decDigits_eq]
      split
      · simp [digitsVal]
      · rw [digitsVal_append_singleton,
          ih (n / 10) (Nat.div_lt_self (by omega) (by omega))]
        omega

theorem decDigits_length_le (k : Nat) : ∀ n, n < 10 ^ k → 1 ≤ k →
    (decDigits n).length ≤ k := by
  induction k with
  | zero => intro n _ h1; omega
  | succ k ih =>
      intro n hn _
      rw [decDigits_eq]
      split
      · simp
      · rename_i hge
        have hk1 : 1 ≤ k := by
          by_contra hc
          have : k = 0 := by omega
          subst this
          simp at hn
          omega
        have hdiv : n / 10 < 10 ^ k := by
          refine Nat.div_lt_of_lt_mul ?_
          have hps : (10 : Nat) ^ (k + 1) = 10 * 10 ^ k := by ring
          omega
        have := ih (n / 10) hdiv hk1
        simp only [List.length_append, List.length_cons, List.length_nil]
        omega

theorem pad6_length (n : Nat) (h : n < 10 ^ 6) : (pad6 n).length = 6 := by
  have hle := decDigits_length_le 6 n h (by omega)
  simp only [pad6, List.length_append, List.length_replicate]
  omega

theorem pad6_lt10 (n : Nat) : ∀ d ∈ pad6 n, d < 10 := by
  intro d hd
  rw [pad6, List.mem_append] at hd
  rcases hd with hd | hd
  · have := List.eq_of_mem_replicate hd
    omega
  · exact decDigits_lt10 n d hd

theorem pad6_val (n : Nat) : digitsVal (pad6 n) = n := by
  rw [pad6, digitsVal_replicate_zero_append, decDigits_val]

end Forensic


namespace Forensic

theorem lex_of_val_lt : ∀ (u v : List Nat), u.length = v.length →
    (∀ d ∈ u, d < 10) → (∀ d ∈ v, d < 10) → digitsVal u < digitsVal v →
    List.Lex (· < ·) u v := by
  intro u
  induction u with
  | nil =>
      intro v hlen _ _ hval
      have hv : v = [] := List.length_eq_zero.mp hlen.symm
      subst hv
      simp [digitsVal] at hval
  | cons x u ih =>
      intro v hlen hu hv hval
      cases v with
      | nil => simp at hlen
      | cons y v' =>
          have hlen' : u.length = v'.length := by simpa using hlen
          rcases lt_trichotomy x y with hxy | hxy | hxy
          · exact List.Lex.rel hxy
          · subst hxy
            refine List.Lex.cons (ih v' hlen' (fun d hd => hu d (by simp [hd]))
              (fun d hd => hv d (by simp [hd])) ?_)
            simp only [digitsVal] at hval
            rw [hlen'] at hval
            exact Nat.lt_of_add_lt_add_left hval
          · exfalso
            have hbv : digitsVal v' < 10 ^ v'.length :=
              digitsVal_lt v' (fun d hd => hv d (by simp [hd]))
            simp only [digitsVal] at hval
            rw [hlen'] at hval
            have h1 : y * 10 ^ v'.length + digitsVal v' < (y + 1) * 10 ^ v'.length := by
              rw [Nat.add_mul, Nat.one_mul]
              omega
            have h2 : (y + 1) * 10 ^ v'.length ≤ x * 10 ^ v'.length :=
              Nat.mul_le_mul_right _ (by omega)
            omega

theorem lex_append_left {α : Type} {r : α → α → Prop} (l : List α) {u v : List α}
    (h : List.Lex r u v) : List.Lex r (l ++ u) (l ++ v) := by
  induction l with
  | nil => simpa
  | cons c l ih => exact List.Lex.cons ih

theorem lex_append_of_length_eq {α : Type} {r : α → α → Prop} :
    ∀ {u v : List α}, List.Lex r u v → u.length = v.length →
    ∀ (s t : List α), List.Lex r (u ++ s) (v ++ t) := by
  intro u v h
  induction h with
  | nil => intro hlen; simp at hlen
  | cons h ih =>
      intro hlen s t
      exact List.Lex.cons (ih (by simpa using hlen) s t)
  | rel hab => intro _ s t; exact List.Lex.rel hab

theorem digitChar_lt {a b : Nat} (ha : a < 10) (hb : b < 10) (hab : a < b) :
    Nat.digitChar a < Nat.digitChar b := by
  have h : ∀ x : Fin 10, ∀ y : Fin 10, x.val < y.val →
      Nat.digitChar x.val < Nat.digitChar y.val := by decide
  exact h ⟨a, ha⟩ ⟨b, hb⟩ hab

theorem lex_map_digitChar : ∀ {u v : List Nat}, List.Lex (· < ·) u v →
    (∀ d ∈ u, d < 10) → (∀ d ∈ v, d < 10) →
    List.Lex (· < ·) (u.map Nat.digitChar) (v.map Nat.digitChar) := by
  intro u v h
  induction h with
  | nil =>
      intro _ _
      simp only [List.map_nil, List.map_cons]
      exact List.Lex.nil
  | @cons a l₁ l₂ h ih =>
      intro hu hv
      simp only [List.map_cons]
      exact List.Lex.cons (ih (fun d hd => hu d (by simp [hd]))
        (fun d hd => hv d (by simp [hd])))
  | @rel a l₁ b l₂ hab =>
      intro hu hv
      simp only [List.map_cons]
      exact List.Lex.rel (digitChar_lt (hu a (by simp)) (hv b (by simp)) hab)

theorem frameName_lt {a b : Nat} (hab : a < b) (hb : b < 10 ^ 6) :
    frameName a < frameName b := by
  rw [String.lt_iff_toList_lt]
  have e1 : (frameName a).toList = frameNameChars a := rfl
  have e2 : (frameName b).toList = frameNameChars b := rfl
  rw [e1, e2]
  have hlex : List.Lex (· < ·) (frameNameChars a) (frameNameChars b) := by
    rw [frameNameChars, frameNameChars, List.append_assoc, List.append_assoc]
    refine lex_append_left _ ?_
    refine lex_append_of_length_eq ?_ ?_ _ _
    · refine lex_map_digitChar ?_ (pad6_lt10 a) (pad6_lt10 b)
      refine lex_of_val_lt _ _ ?_ (pad6_lt10 a) (pad6_lt10 b) ?_
      · rw [pad6_length a (by omega), pad6_length b hb]
      · rw [pad6_val, pad6_val]; exact hab
    · simp only [List.length_map]
      rw [pad6_length a (by omega), pad6_length b hb]
  exact hlex

theorem frameNames_sorted (k : Nat) (hk : k ≤ 999999) :
    List.Sorted (· ≤ ·) ((List.range k).map (fun j => frameName (j + 1))) := by
  rw [List.Sorted, List.pairwise_iff_get]
  intro i j hij
  have hi : ((List.range k).map (fun j => frameName (j + 1))).get i =
      frameName (i.val + 1) := by simp
  have hj : ((List.range k).map (fun j => frameName (j + 1))).get j =
      frameName (j.val + 1) := by simp
  rw [hi, hj]
  have hjk : j.val < k := by
    have := j.isLt
    simpa using this
  have hpow : (10 : Nat) ^ 6 = 1000000 := by norm_num
  exact le_of_lt (frameName_lt (by omega) (by omega))

end Forensic

namespace Forensic

/-- C6 (amended): for every extraction the returned sequence is
sorted lexicographically by filename; and as long as at most 999999
frames are extracted (so every `%06d` numeral keeps width six) that
lexicographic order equals the temporal (decode) order. -/
theorem extract_frames_sorted_temporal (N skip : Nat) :
    List.Sorted (· ≤ ·) (extract_frames N skip) ∧
    ((selectedIndices N skip).length ≤ 999999 →
      extract_frames N skip = temporalNames N skip) := by
  refine ⟨List.sorted_insertionSort _ _, fun h => ?_⟩
  exact (frameNames_sorted _ h).insertionSort_eq

/-- Witness for the amended C6: a three-frame extraction is sorted and
lexicographic order is temporal order. -/
theorem extract_frames_sorted_temporal_witness :
    List.Sorted (· ≤ ·) (extract_frames 3 0) ∧
    extract_frames 3 0 = temporalNames 3 0 :=
  ⟨(extract_frames_sorted_temporal 3 0).1,
   (extract_frames_sorted_temporal 3 0).2 (by decide)⟩

/-- Length of the temporal name sequence. -/
theorem temporalNames_length (N skip : Nat) :
    (temporalNames N skip).length = (selectedIndices N skip).length := by
  simp only [temporalNames, List.length_map, List.length_range]

/-- With stride 0 every frame index is selected. -/
theorem selectedIndices_zero (N : Nat) : selectedIndices N 0 = List.range N := by
  rw [selectedIndices, if_neg (by decide)]

/-- The i-th temporal name is the frame name with counter i + 1. -/
theorem temporalNames_get (N skip i : Nat) (h : i < (temporalNames N skip).length) :
    (temporalNames N skip).get ⟨i, h⟩ = frameName (i + 1) := by
  simp [temporalNames]

/-- C6 counterexample: on a 1000000-frame extraction the `%06d`
numeral of the millionth frame has seven characters, and
`"frame-1000000.jpg"` sorts lexicographically before
`"frame-999999.jpg"`, so the sorted sequence the extractor returns is
NOT in temporal order. -/
theorem extract_frames_not_temporal_at_million :
    extract_frames 1000000 0 ≠ temporalNames 1000000 0 := by
  intro heq
  have hsorted : List.Sorted (· ≤ ·) (temporalNames 1000000 0) := by
    rw [← heq]
    exact List.sorted_insertionSort _ _
  have hlen : (temporalNames 1000000 0).length = 1000000 := by
    rw [temporalNames_length, selectedIndices_zero, List.length_range]
  have hb1 : 999998 < (temporalNames 1000000 0).length := by rw [hlen]; omega
  have hb2 : 999999 < (temporalNames 1000000 0).length := by rw [hlen]; omega
  have hrel := hsorted.rel_get_of_lt
    (show (⟨999998, hb1⟩ : Fin ((temporalNames 1000000 0).length)) < ⟨999999, hb2⟩ from
      Fin.mk_lt_mk.mpr (by norm_num))
  have h1 : (temporalNames 1000000 0).get ⟨999998, hb1⟩ = frameName 999999 :=
    (temporalNames_get 1000000 0 999998 hb1).trans (congrArg frameName (by norm_num))
  have h2 : (temporalNames 1000000 0).get ⟨999999, hb2⟩ = frameName 1000000 :=
    (temporalNames_get 1000000 0 999999 hb2).trans (congrArg frameName (by norm_num))
  rw [h1, h2] at hrel
  have e1 : pad6 1000000 = [1, 0, 0, 0, 0, 0, 0] := by decide
  have e2 : pad6 999999 = [9, 9, 9, 9, 9, 9] := by decide
  have hlt : frameName 1000000 < frameName 999999 := by
    rw [String.lt_iff_toList_lt]
    have t1 : (frameName 1000000).toList = frameNameChars 1000000 := rfl
    have t2 : (frameName 999999).toList = frameNameChars 999999 := rfl
    rw [t1, t2]
    have hlex : List.Lex (· < ·) (frameNameChars 1000000) (frameNameChars 999999) := by
      rw [frameNameChars, frameNameChars, e1, e2, List.append_assoc, List.append_assoc]
      refine lex_append_left _ ?_
      simp only [List.map_cons, List.map_nil, List.cons_append]
      exact List.Lex.rel (by decide)
    exact hlex
  exact absurd hrel (not_le.mpr hlt)

end Forensic

namespace Forensic

/-! ### Pipeline orchestrator (`forensic_pipeline`)

The interactive file picker is out of scope (a path is injected).
`run_ffprobe` is a collaborator returning a metadata document or a
diagnostic (`probe`); the ffmpeg extraction outcome is a collaborator
result (`extractOutcome`).  The source checks existence and
regular-file-ness, hashes the video (any failure aborts), probes
metadata (failure degrades to `meta = {}`), extracts frames (failure
aborts), indexes them (an uncaught digest failure propagates), and
runs the temporal analysis at threshold 0.60. -/

/-- The data the finished pipeline hands to the report renderer. -/
structure PipelineResult where
  sha : String
  meta : List (String × String)
  frame_files : List String
  index : List IndexEntry
  scores : List SimilarityRecord
  anomalies : List SimilarityRecord

/-- How a pipeline run ends: one of the abort paths, or a finished
run carrying its artifacts. -/
inductive PipelineOutcome where
  | noVideo
  | notAFile
  | shaFailed (e : HashError)
  | extractFailed (msg : String)
  | indexCrashed (e : HashError)
  | finished (r : PipelineResult)

/-- `forensic_pipeline(video_path, skip, output_root, cleanup)` from
the source, over the collaborator outcomes of one run. -/
def forensic_pipeline {H R : Type} (hash : HashAcc H) (fs : String → Option FSEntry)
    (probe : Except String (List (String × String)))
    (extractOutcome : Except String (List String))
    (phash : String → Option String)
    (imread : String → Option R) (ssimFn : R → R → Option ℚ)
    (video_path : String) : PipelineOutcome :=
  match fs video_path with
  | none => .noVideo
  | some .dir => .notAFile
  | some (.file _) =>
      match sha256_file hash fs video_path with
      | .error e => .shaFailed e
      | .ok sha =>
          let meta := match probe with | .ok m => m | .error _ => []
          match extractOutcome with
          | .error msg => .extractFailed msg
          | .ok frame_files =>
              match index_frames phash (sha256_file hash fs) frame_files with
              | .error e => .indexCrashed e
              | .ok index =>
                  let sa := temporal_ssim imread ssimFn frame_files (6 / 10)
                  .finished { sha := sha, meta := meta, frame_files := frame_files,
                              index := index, scores := sa.1, anomalies := sa.2 }

end Forensic

namespace Forensic

/-- C9: a metadata-probe failure is non-fatal: whenever the other
stages of the run succeed, the pipeline still finishes, with the empty
metadata document substituted and extraction, indexing and temporal
analysis all carried out. -/
theorem forensic_pipeline_probe_failure_nonfatal {H R : Type} (hash : HashAcc H)
    (fs : String → Option FSEntry) (emsg : String)
    (extractOutcome : Except String (List String))
    (phash : String → Option String)
    (imread : String → Option R) (ssimFn : R → R → Option ℚ)
    (video_path : String)
    (hvid : ∃ r, fs video_path = some (.file r))
    (hsha : ∃ d, sha256_file hash fs video_path = .ok d)
    (frames : List String) (hext : extractOutcome = .ok frames)
    (idx : List IndexEntry)
    (hidx : index_frames phash (sha256_file hash fs) frames = .ok idx) :
    ∃ res : PipelineResult,
      forensic_pipeline hash fs (.error emsg) extractOutcome phash imread ssimFn
        video_path = .finished res ∧
      res.meta = [] ∧
      res.frame_files = frames ∧
      res.index = idx ∧
      res.scores = (temporal_ssim imread ssimFn frames (6 / 10)).1 ∧
      res.anomalies = (temporal_ssim imread ssimFn frames (6 / 10)).2 := by
  obtain ⟨r, hr⟩ := hvid
  obtain ⟨d, hd⟩ := hsha
  subst hext
  refine ⟨{ sha := d, meta := [], frame_files := frames, index := idx,
            scores := (temporal_ssim imread ssimFn frames (6 / 10)).1,
            anomalies := (temporal_ssim imread ssimFn frames (6 / 10)).2 },
          ?_, rfl, rfl, rfl, rfl, rfl⟩
  simp [forensic_pipeline, hr, hd, hidx]

/-- A one-byte-per-file filesystem used in the C9 witness. -/
def fsOne : String → Option FSEntry := fun _ => some (.file (.ok [1]))

/-- Witness for C9: a concrete run with a failing probe finishes with
empty metadata and all downstream artifacts produced. -/
theorem forensic_pipeline_probe_failure_nonfatal_witness :
    ∃ res : PipelineResult,
      forensic_pipeline unitHash fsOne (.error "probe failed") (.ok ["a", "b"])
        (fun _ => some "p") imreadUnit ssimFail "v.mp4" = .finished res ∧
      res.meta = [] ∧
      res.frame_files = ["a", "b"] ∧
      res.index = [⟨"a", "a", "p", "d"⟩, ⟨"b", "b", "p", "d"⟩] ∧
      res.scores = (temporal_ssim imreadUnit ssimFail ["a", "b"] (6 / 10)).1 ∧
      res.anomalies = (temporal_ssim imreadUnit ssimFail ["a", "b"] (6 / 10)).2 :=
  forensic_pipeline_probe_failure_nonfatal unitHash fsOne "probe failed"
    (.ok ["a", "b"]) (fun _ => some "p") imreadUnit ssimFail "v.mp4"
    ⟨.ok [1], rfl⟩ ⟨"d", rfl⟩ ["a", "b"] rfl
    [⟨"a", "a", "p", "d"⟩, ⟨"b", "b", "p", "d"⟩] rfl

end Forensic
